import Mathlib

/-!
Verification development for the layered-graph crossing-minimization program.

The definitions below are shallow embeddings of the C sources:
* `sgf.c` — reading/writing the self-contained `sgf` dialect;
* `graph_io.c` — node/edge/layer construction shared by both input dialects;
* `heuristics.c` — iteration control (`end_of_iteration`, `terminate`) and
  the swapping post-processor;
* `main.c` — command-line option handling (the `-i` option).

Machine integers are modelled as `Int` (no arithmetic here approaches the
32-bit range), layer indices as `Nat` where they index the layer array,
wall-clock time as `Rat`, and fatal `abort()` paths as `Except.error`.
-/

/-- A node as read from an `sgf` `n <id> <layer> <position>` line; fields are
exactly those filled in by `makeNumberedNode` in graph_io.c that the loader
claims depend on (`name` is the decimal rendering of `id` and is omitted). -/
structure SgfNode where
  id : Int
  layer : Nat
  position : Int
deriving DecidableEq, Repr

/-- `makeNumberedNode` (graph_io.c): builds the node record from the values
scanned off the `n` line; `id`, `layer`, `position` are stored verbatim. -/
def makeNumberedNode (id : Int) (layer : Nat) (position : Int) : SgfNode :=
  { id := id, layer := layer, position := position }

/-- `readSgfNodes` (sgf.c), master-list aspect: each `n` line is turned into a
node via `makeNumberedNode` and appended to `master_node_list` in file order
(`addToNodeList` writes at a running index). -/
def readSgfNodesList (entries : List SgfNode) : List SgfNode :=
  entries.foldl (fun acc e => acc ++ [makeNumberedNode e.id e.layer e.position]) []

/-- `readSgfNodes` (sgf.c), `number_of_nodes` aspect: the global counter starts
at 0 in `initSgf` and is incremented once per `n` line. -/
def readSgfNodeCount (entries : List SgfNode) : Nat :=
  entries.foldl (fun number_of_nodes _ => number_of_nodes + 1) 0

/-- `readSgfNodes` (sgf.c), `number_of_layers` aspect: for each `n` line with
layer `l`, `if (l >= number_of_layers) number_of_layers = l + 1` (0-based). -/
def readSgfLayerCount (entries : List SgfNode) : Nat :=
  entries.foldl
    (fun number_of_layers e =>
      if e.layer ≥ number_of_layers then e.layer + 1 else number_of_layers)
    0

/-- `readSgfEdges` (sgf.c), `number_of_edges` aspect: incremented once per `e`
line; an edge line is a pair of endpoint ids. -/
def readSgfEdgeCount (edges : List (Int × Int)) : Nat :=
  edges.foldl (fun number_of_edges _ => number_of_edges + 1) 0

/-- `readSgfNodes` (sgf.c): warning emitted iff the `t` line's node count
differs from the number of `n` lines actually read.  Non-fatal. -/
def sgfNodeCountWarning (num_nodes : Int) (entries : List SgfNode) : Bool :=
  num_nodes != (readSgfNodeCount entries : Int)

/-- `readSgfNodes` (sgf.c): warning emitted iff the `t` line's layer count
differs from the number of distinct layers implied by the `n` lines. -/
def sgfLayerCountWarning (num_layers : Int) (entries : List SgfNode) : Bool :=
  num_layers != (readSgfLayerCount entries : Int)

/-- `readSgfEdges` (sgf.c): warning emitted iff the `t` line's edge count
differs from the number of `e` lines actually read.  Non-fatal. -/
def sgfEdgeCountWarning (num_edges : Int) (edges : List (Int × Int)) : Bool :=
  num_edges != (readSgfEdgeCount edges : Int)

/-- The scanning loop of `insertIntoLayer` (graph_io.c), which walks the layer
array from its top slot downwards.  The argument list is the already-placed
prefix of the layer *reversed* (head = highest slot, the first node the C loop
examines).  While the examined node's position is `>=` the new node's position
it is shifted one slot up (kept in front here), a position tie is the fatal
duplicate-position diagnostic naming the two offending nodes, and the walk
stops at the first strictly smaller position. -/
def insertIntoLayerRev (node : SgfNode) :
    List SgfNode → Except (SgfNode × SgfNode) (List SgfNode)
  | [] => Except.ok [node]
  | prev :: rest =>
    if prev.position ≥ node.position then
      if prev.position = node.position then
        Except.error (prev, node)
      else
        match insertIntoLayerRev node rest with
        | Except.ok inserted => Except.ok (prev :: inserted)
        | Except.error e => Except.error e
    else
      Except.ok (node :: prev :: rest)

/-- `insertIntoLayer` (graph_io.c): insert `node` into the (position-sorted)
nodes already on its layer, aborting on a duplicate position. -/
def insertIntoLayer (node : SgfNode) (layerNodes : List SgfNode) :
    Except (SgfNode × SgfNode) (List SgfNode) :=
  match insertIntoLayerRev node layerNodes.reverse with
  | Except.ok result => Except.ok result.reverse
  | Except.error e => Except.error e

/-- One step of the second loop of `addNodesToLayers` (graph_io.c): the node is
inserted into the layer selected by its `layer` field. -/
def addNodesToLayersStep (layers : List (List SgfNode)) (node : SgfNode) :
    Except (SgfNode × SgfNode) (List (List SgfNode)) :=
  match insertIntoLayer node (layers.getD node.layer []) with
  | Except.ok newLayer => Except.ok (layers.set node.layer newLayer)
  | Except.error e => Except.error e

/-- `addNodesToLayers` (graph_io.c): traverse the master node list and insert
each node into its layer (the first counting pass only sizes allocations and
has no observable effect on the resulting layer contents). -/
def addNodesToLayers (nodes : List SgfNode) (numLayers : Nat) :
    Except (SgfNode × SgfNode) (List (List SgfNode)) :=
  nodes.foldlM addNodesToLayersStep (List.replicate numLayers [])

/-- `readSgf` (sgf.c): the layer-structure aspect of loading an sgf stream —
read the nodes into the master list, then distribute them onto layers.
Note that the call to `sort_all_layers_by_position()` in the source is
commented out, and `insertIntoLayer` never rewrites `position` fields. -/
def readSgf (nodes : List SgfNode) :
    Except (SgfNode × SgfNode) (List (List SgfNode)) :=
  addNodesToLayers (readSgfNodesList nodes) (readSgfLayerCount nodes)

/-- The layer invariant asserted by the claim under test: every node's
`position` field equals its 0-based slot index within its layer. -/
def positionsMatchSlots (layers : List (List SgfNode)) : Bool :=
  layers.all (fun l => l.enum.all (fun p => p.2.position == (p.1 : Int)))

/-- `true` iff an `Except` computation succeeded. -/
def isOkExcept {ε α : Type} : Except ε α → Bool
  | Except.ok _ => true
  | Except.error _ => false

/-- Whether the sgf loader leaves every layer with positions equal to slot
indices (vacuously true if loading aborts). -/
def readSgfPositionsOk (nodes : List SgfNode) : Bool :=
  match readSgf nodes with
  | Except.ok layers => positionsMatchSlots layers
  | Except.error _ => true

/-- Compatibility of two sgf nodes: if they declare the same layer they must
declare different positions. -/
def okPair (a b : SgfNode) : Prop :=
  a.layer = b.layer → a.position ≠ b.position

instance (a b : SgfNode) : Decidable (okPair a b) := by
  unfold okPair
  infer_instance

/-- Pairwise compatibility required of an sgf node list: two nodes on the same
layer must declare different positions. -/
def distinctPositions (nodes : List SgfNode) : Prop :=
  nodes.Pairwise okPair

/-- A layer list is sorted by strictly ascending position. -/
def ascByPos (l : List SgfNode) : Prop :=
  l.Pairwise (fun a b => a.position < b.position)

/-- A layer list is sorted by strictly descending position (the orientation in
which the `insertIntoLayer` loop scans). -/
def descByPos (l : List SgfNode) : Prop :=
  l.Pairwise (fun a b => b.position < a.position)

/-- Every layer list kept sorted by strictly ascending position (the layer
order maintained by `addNodesToLayers`). -/
def layersSorted (ls : List (List SgfNode)) : Prop :=
  ∀ ln : Nat, ascByPos (ls.getD ln [])

/-- Every node stored on a layer declares that layer. -/
def layersCoherent (ls : List (List SgfNode)) : Prop :=
  ∀ ln : Nat, ∀ x ∈ ls.getD ln [], x.layer = ln

/-- No node still to be inserted collides with a position already stored on
its layer. -/
def freshPositions (todo : List SgfNode) (ls : List (List SgfNode)) : Prop :=
  ∀ n ∈ todo, ∀ x ∈ ls.getD n.layer [], x.position ≠ n.position

/-- Whether the sgf master node list satisfies `master_node_list[i]->id == i`
(the property the claim under test asserts for both input dialects). -/
def sgfIdsMatchIndex (nodes : List SgfNode) : Bool :=
  (readSgfNodesList nodes).enum.all (fun p => p.2.id == (p.1 : Int))

-- ------- dot+ord loader (graph_io.c) -------

/-- A node created by `makeNode` (graph_io.c) while reading the `ord` file:
the name from the file together with the id assigned by the loader. -/
structure OrdNode where
  name : String
  id : Nat
deriving DecidableEq, Repr

/-- `makeNode` (graph_io.c): each newly encountered name receives
`id = current_id++` and is stored at `master_node_list[id]`; modelled as a
recursion over the names in order of first appearance. -/
def makeNode : Nat → List String → List OrdNode
  | _, [] => []
  | current_id, name :: rest => { name := name, id := current_id } :: makeNode (current_id + 1) rest

/-- `assignNodesToLayers` (graph_io.c): reading the `ord` file creates the
nodes in the order they appear, starting from `current_id = 0`. -/
def assignNodesToLayers (names : List String) : List OrdNode :=
  makeNode 0 names

-- ------- addEdge and sgf edge output (graph_io.c, sgf.c) -------

/-- The endpoint data `addEdge` (graph_io.c) consults: the node's id and its
`layer` field (an `int` in the source). -/
structure GNode where
  id : Int
  layer : Int
deriving DecidableEq, Repr

/-- An edge as built by `addEdge` (graph_io.c). -/
structure GEdge where
  up_node : GNode
  down_node : GNode
  crossings : Int
  fixed : Bool
deriving DecidableEq, Repr

/-- `addEdge` (graph_io.c): abort if the endpoints share a layer; classify the
higher endpoint as `up_node` and the lower as `down_node`; abort if the layers
are not adjacent; otherwise create the edge with zeroed caches. -/
def addEdge (node1 node2 : GNode) : Except Unit GEdge :=
  if node1.layer = node2.layer then
    Except.error ()
  else
    let upper_node := if node1.layer > node2.layer then node1 else node2
    let lower_node := if node1.layer < node2.layer then node1 else node2
    if upper_node.layer - lower_node.layer ≠ 1 then
      Except.error ()
    else
      Except.ok { up_node := upper_node, down_node := lower_node, crossings := 0, fixed := false }

/-- `writeSgfEdges` (sgf.c): each edge is printed as
`e <down_node id> <up_node id>`. -/
def writeSgfEdgeLine (edge : GEdge) : Int × Int :=
  (edge.down_node.id, edge.up_node.id)

/-- `writeSgfEdges` (sgf.c) over the master edge list. -/
def writeSgfEdges (edges : List GEdge) : List (Int × Int) :=
  edges.map writeSgfEdgeLine

-- ------- iteration controller (heuristics.c) -------

/-- The configuration consulted by `end_of_iteration` (heuristics.c):
`max_iterations` (`-i`, default `INT_MAX`) and `max_runtime`
(`-r`, default `DBL_MAX`). -/
structure IterConfig where
  max_iterations : Int
  max_runtime : Rat
deriving DecidableEq, Repr

/-- `end_of_iteration` (heuristics.c): after the capture/bookkeeping side
effects, `done = (iteration >= max_iterations || RUNTIME >= max_runtime)`;
`iteration` is incremented; `done` is returned.  The returned pair is
(return value, new iteration counter); `runtime` is the value of the `RUNTIME`
macro at the moment of the call. -/
def end_of_iteration (cfg : IterConfig) (iteration : Int) (runtime : Rat) :
    Bool × Int :=
  ((decide (iteration ≥ cfg.max_iterations) || decide (runtime ≥ cfg.max_runtime)),
   iteration + 1)

/-- The termination condition as worded by the specification claim: exceeding
`max_iterations`, exceeding `max_runtime`, or — in standard termination mode —
no tracked objective having improved during the pass. -/
def claimedTermination (cfg : IterConfig) (iteration : Int) (runtime : Rat)
    (standard_termination : Bool) (improved_during_pass : Bool) : Bool :=
  decide (iteration ≥ cfg.max_iterations)
  || decide (runtime ≥ cfg.max_runtime)
  || (standard_termination && !improved_during_pass)

/-- `terminate` (heuristics.c), called at the end of a pass: standard
termination fires iff `standard_termination && no_improvement_seen`; otherwise
reaching `max_iterations` or `max_passes` terminates; otherwise the pass
counter is incremented and the heuristic continues.  Returns
(return value, new pass counter). -/
def terminate (standard_termination : Bool) (no_improvement_seen : Bool)
    (iteration max_iterations pass max_passes : Int) : Bool × Int :=
  if standard_termination && no_improvement_seen then (true, pass)
  else if iteration ≥ max_iterations then (true, pass)
  else if pass ≥ max_passes then (true, pass)
  else (false, pass + 1)

-- ------- command-line options (main.c) -------

/-- The option state touched by the `-i` case of `main`'s getopt loop. -/
structure CmdOptions where
  max_iterations : Int
  standard_termination : Bool
deriving DecidableEq, Repr

/-- The `case 'i'` branch of the getopt loop in main.c:
`max_iterations = atoi(optarg); standard_termination = false;`. -/
def applyOptionI (optarg : Int) (opts : CmdOptions) : CmdOptions :=
  { opts with max_iterations := optarg, standard_termination := false }

-- ------- swapping post-processor (heuristics.c) -------

/-- The per-node state the swapping post-processor manipulates. -/
structure PNode where
  id : Int
  position : Int
deriving DecidableEq, Repr

/-- The inner loop of `swapping_iteration` (heuristics.c) on one layer,
starting at slot `i` and stepping by 2 (`node_crossings` is supplied as a
function `nc` of the two nodes, exactly the call shape in the source; swaps on
the layers visited in one iteration do not change positions on the neighbouring
layers those counts are computed from).  For each examined adjacent pair the
body computes `diff = node_crossings(u,v) - node_crossings(v,u)`; if positive
it performs `swap_nodes` (which also rewrites the two `position` fields to the
slots the nodes move to) and subtracts `diff` from the running crossings
count. -/
def swapping_layer_pass (nc : PNode → PNode → Int) :
    Nat → List PNode → Int → List PNode × Int
  | _, [], crossings => ([], crossings)
  | _, [u], crossings => ([u], crossings)
  | i, u :: v :: rest, crossings =>
    let crossings_before_swap := nc u v
    let crossings_after_swap := nc v u
    let diff := crossings_before_swap - crossings_after_swap
    if diff > 0 then
      let tail_result := swapping_layer_pass nc (i + 2) rest (crossings - diff)
      ({ v with position := (i : Int) } :: { u with position := (i + 1 : Int) } :: tail_result.1,
       tail_result.2)
    else
      let tail_result := swapping_layer_pass nc (i + 2) rest crossings
      (u :: v :: tail_result.1, tail_result.2)

/-- One layer's share of `swapping_iteration` (heuristics.c): the slot loop
runs `for (i = odd_even; i < n - 1; i += 2)`. -/
def swapping_iteration_layer (nc : PNode → PNode → Int) (odd_even : Nat)
    (nodes : List PNode) (crossings : Int) : List PNode × Int :=
  if odd_even = 1 then
    match nodes with
    | [] => ([], crossings)
    | first :: rest =>
      let result := swapping_layer_pass nc 1 rest crossings
      (first :: result.1, result.2)
  else
    swapping_layer_pass nc 0 nodes crossings

/-- The layer loop of `swapping_iteration` (heuristics.c):
`for (layer = odd_even; layer < number_of_layers; layer += 2)`; `idx` is the
index of the first layer of the remaining list. -/
def swapping_iteration_aux (nc : PNode → PNode → Int) (odd_even : Nat) :
    Nat → List (List PNode) → Int → List (List PNode) × Int
  | _, [], crossings => ([], crossings)
  | idx, l :: rest, crossings =>
    if idx % 2 = odd_even % 2 then
      let layer_result := swapping_iteration_layer nc odd_even l crossings
      let rest_result := swapping_iteration_aux nc odd_even (idx + 1) rest layer_result.2
      (layer_result.1 :: rest_result.1, rest_result.2)
    else
      let rest_result := swapping_iteration_aux nc odd_even (idx + 1) rest crossings
      (l :: rest_result.1, rest_result.2)

/-- `swapping_iteration` (heuristics.c): one even (`odd_even = 0`) or odd
(`odd_even = 1`) pass over all layers; takes and returns the running
crossings count. -/
def swapping_iteration (nc : PNode → PNode → Int) (crossings : Int)
    (odd_even : Nat) (layers : List (List PNode)) : List (List PNode) × Int :=
  swapping_iteration_aux nc odd_even 0 layers crossings

-- ------- the swapping claim, in the claim's own words -------

/-- Claim-side description of one layer pass: each considered adjacent pair is
swapped (with positions updated to the new slots) iff
`node_crossings(u,v) - node_crossings(v,u) > 0`. -/
def claimedLayerResult (nc : PNode → PNode → Int) :
    Nat → List PNode → List PNode
  | _, [] => []
  | _, [u] => [u]
  | i, u :: v :: rest =>
    if nc u v - nc v u > 0 then
      { v with position := (i : Int) } :: { u with position := (i + 1 : Int) }
        :: claimedLayerResult nc (i + 2) rest
    else
      u :: v :: claimedLayerResult nc (i + 2) rest

/-- Claim-side description of the counter bookkeeping on one layer: the sum,
over considered pairs, of the positive part of
`node_crossings(u,v) - node_crossings(v,u)` — the claim says exactly this much
is subtracted from the running total. -/
def claimedDelta (nc : PNode → PNode → Int) : List PNode → Int
  | [] => 0
  | [_] => 0
  | u :: v :: rest => max (nc u v - nc v u) 0 + claimedDelta nc rest

/-- Claim-side layer pass including the parity offset. -/
def claimedLayer (nc : PNode → PNode → Int) (odd_even : Nat)
    (nodes : List PNode) : List PNode :=
  if odd_even = 1 then
    match nodes with
    | [] => []
    | first :: rest => first :: claimedLayerResult nc 1 rest
  else
    claimedLayerResult nc 0 nodes

/-- Claim-side delta of one layer including the parity offset. -/
def claimedLayerDelta (nc : PNode → PNode → Int) (odd_even : Nat)
    (nodes : List PNode) : Int :=
  if odd_even = 1 then
    match nodes with
    | [] => 0
    | _ :: rest => claimedDelta nc rest
  else
    claimedDelta nc nodes

/-- Claim-side result over all layers. -/
def claimedLayers (nc : PNode → PNode → Int) (odd_even : Nat) :
    Nat → List (List PNode) → List (List PNode)
  | _, [] => []
  | idx, l :: rest =>
    if idx % 2 = odd_even % 2 then
      claimedLayer nc odd_even l :: claimedLayers nc odd_even (idx + 1) rest
    else
      l :: claimedLayers nc odd_even (idx + 1) rest

/-- Claim-side total subtracted over all layers. -/
def claimedLayersDelta (nc : PNode → PNode → Int) (odd_even : Nat) :
    Nat → List (List PNode) → Int
  | _, [] => 0
  | idx, l :: rest =>
    if idx % 2 = odd_even % 2 then
      claimedLayerDelta nc odd_even l + claimedLayersDelta nc odd_even (idx + 1) rest
    else
      claimedLayersDelta nc odd_even (idx + 1) rest

-- ===================== theorems =====================

theorem pairRec {α : Type} {motive : List α → Prop} (h0 : motive [])
    (h1 : ∀ u, motive [u])
    (h2 : ∀ u v rest, motive rest → motive (u :: v :: rest)) :
    ∀ l : List α, motive l
  | [] => h0
  | [u] => h1 u
  | u :: v :: rest => h2 u v rest (pairRec h0 h1 h2 rest)

theorem swapping_layer_pass_eq (nc : PNode → PNode → Int) (l : List PNode) :
    ∀ (i : Nat) (cr : Int),
    swapping_layer_pass nc i l cr = (claimedLayerResult nc i l, cr - claimedDelta nc l) := by
  induction l using pairRec with
  | h0 =>
    intro i cr
    simp [swapping_layer_pass, claimedLayerResult, claimedDelta]
  | h1 u =>
    intro i cr
    simp [swapping_layer_pass, claimedLayerResult, claimedDelta]
  | h2 u v rest ih =>
    intro i cr
    by_cases h : nc u v - nc v u > 0
    · have hmax : max (nc u v - nc v u) 0 = nc u v - nc v u := max_eq_left (le_of_lt h)
      simp only [swapping_layer_pass, claimedLayerResult, claimedDelta, h, if_true, ite_true,
        hmax, ih]
      rw [sub_sub]
    · have hmax : max (nc u v - nc v u) 0 = 0 := max_eq_right (le_of_not_lt h)
      simp only [swapping_layer_pass, claimedLayerResult, claimedDelta, h, if_false, ite_false,
        hmax, ih]
      rw [zero_add]

theorem swapping_iteration_layer_eq (nc : PNode → PNode → Int) (odd_even : Nat)
    (nodes : List PNode) (cr : Int) :
    swapping_iteration_layer nc odd_even nodes cr
      = (claimedLayer nc odd_even nodes, cr - claimedLayerDelta nc odd_even nodes) := by
  unfold swapping_iteration_layer claimedLayer claimedLayerDelta
  by_cases h : odd_even = 1
  · simp only [h, if_true, ite_true]
    cases nodes with
    | nil => simp
    | cons first rest => simp [swapping_layer_pass_eq]
  · simp only [h, if_false, ite_false, swapping_layer_pass_eq]

theorem swapping_iteration_aux_eq (nc : PNode → PNode → Int) (odd_even : Nat)
    (layers : List (List PNode)) :
    ∀ (idx : Nat) (cr : Int),
    swapping_iteration_aux nc odd_even idx layers cr
      = (claimedLayers nc odd_even idx layers, cr - claimedLayersDelta nc odd_even idx layers) := by
  induction layers with
  | nil =>
    intro idx cr
    simp [swapping_iteration_aux, claimedLayers, claimedLayersDelta]
  | cons l rest ih =>
    intro idx cr
    by_cases h : idx % 2 = odd_even % 2
    · simp only [swapping_iteration_aux, claimedLayers, claimedLayersDelta, h, if_true, ite_true,
        swapping_iteration_layer_eq, ih]
      rw [sub_sub]
    · simp only [swapping_iteration_aux, claimedLayers, claimedLayersDelta, h, if_false,
        ite_false, ih]

/-- C2: in every iteration of the swapping post-processor, each adjacent pair
considered on a layer is swapped iff
`node_crossings(u,v) - node_crossings(v,u) > 0`, and the running
total-crossings counter ends up decreased by exactly the sum of those positive
differences — i.e., each performed swap subtracts its own positive
difference. -/
theorem swapping_iteration_swaps_iff_positive_delta (nc : PNode → PNode → Int)
    (crossings : Int) (odd_even : Nat) (layers : List (List PNode)) :
    swapping_iteration nc crossings odd_even layers
      = (claimedLayers nc odd_even 0 layers,
         crossings - claimedLayersDelta nc odd_even 0 layers) := by
  unfold swapping_iteration
  exact swapping_iteration_aux_eq nc odd_even layers 0 crossings

/-- C3 counterexample: with standard termination enabled and no objective
having improved during the pass, the claim's termination condition says
`end_of_iteration` must return `true`, but the code returns `false` whenever
neither the iteration limit nor the runtime limit has been reached (here
iteration 0 of 10, runtime 0 of 100). -/
theorem end_of_iteration_ignores_no_improvement :
    (end_of_iteration { max_iterations := 10, max_runtime := 100 } 0 0).1 = false ∧
    claimedTermination { max_iterations := 10, max_runtime := 100 } 0 0 true false = true := by
  constructor
  · rfl
  · rfl

/-- C3 (amended): `end_of_iteration` returns `true` iff the iteration counter
has reached `max_iterations` or the runtime has reached `max_runtime`; the
standard no-improvement criterion is never consulted there (it lives in
`terminate`, evaluated at the end of a pass).  Equivalently, the return value
coincides with the claim's termination condition only with its
standard-termination disjunct switched off; the iteration counter is
incremented on every call. -/
theorem end_of_iteration_limit_checks_only (cfg : IterConfig) (iteration : Int)
    (runtime : Rat) (improved_during_pass : Bool) :
    end_of_iteration cfg iteration runtime
      = (claimedTermination cfg iteration runtime false improved_during_pass,
         iteration + 1) := by
  simp [end_of_iteration, claimedTermination]

/-- C4: once `end_of_iteration` returns `true` it keeps returning `true` on
every subsequent call (the iteration counter only grows — each call increments
it — and wall-clock runtime is nondecreasing, while `max_iterations` and
`max_runtime` are unchanged). -/
theorem end_of_iteration_true_persists (cfg : IterConfig) (iteration : Int)
    (runtime : Rat) (k : Nat) (runtime' : Rat) (hrt : runtime ≤ runtime')
    (h : (end_of_iteration cfg iteration runtime).1 = true) :
    (end_of_iteration cfg (iteration + k) runtime').1 = true := by
  simp only [end_of_iteration, Bool.or_eq_true, decide_eq_true_eq] at h ⊢
  rcases h with h | h
  · left
    omega
  · right
    exact le_trans h hrt

theorem end_of_iteration_true_persists_witness :
    ((0 : Rat) ≤ 0) ∧ ((end_of_iteration { max_iterations := 0, max_runtime := 100 } 0 0).1 = true) ∧
    (end_of_iteration { max_iterations := 0, max_runtime := 100 } (0 + (3 : Nat)) 0).1 = true :=
  ⟨le_refl 0, rfl,
   end_of_iteration_true_persists { max_iterations := 0, max_runtime := 100 } 0 0 3 0 (le_refl 0) rfl⟩

/-- C9: the `-i` option sets `max_iterations` to its argument and disables
standard termination; afterwards `terminate` returns `true` whenever the
iteration counter has reached `max_iterations`, however the improvement flag
reads. -/
theorem option_i_forces_iteration_termination (opts : CmdOptions) (optarg : Int)
    (no_improvement_seen : Bool) (iteration pass max_passes : Int)
    (h : iteration ≥ optarg) :
    (applyOptionI optarg opts).max_iterations = optarg ∧
    (applyOptionI optarg opts).standard_termination = false ∧
    (terminate (applyOptionI optarg opts).standard_termination no_improvement_seen
        iteration (applyOptionI optarg opts).max_iterations pass max_passes).1 = true := by
  refine ⟨rfl, rfl, ?_⟩
  simp [applyOptionI, terminate, h]

theorem option_i_forces_iteration_termination_witness :
    ((2 : Int) ≥ 2) ∧
    ((applyOptionI 2 { max_iterations := 1000, standard_termination := true }).max_iterations = 2 ∧
     (applyOptionI 2 { max_iterations := 1000, standard_termination := true }).standard_termination = false ∧
     (terminate
        (applyOptionI 2 { max_iterations := 1000, standard_termination := true }).standard_termination
        true 2
        (applyOptionI 2 { max_iterations := 1000, standard_termination := true }).max_iterations
        0 1000).1 = true) :=
  ⟨le_refl 2,
   option_i_forces_iteration_termination { max_iterations := 1000, standard_termination := true }
     2 true 2 0 1000 (le_refl 2)⟩

theorem addEdge_ok_characterization (node1 node2 : GNode) (edge : GEdge)
    (h : addEdge node1 node2 = Except.ok edge) :
    (node1.layer < node2.layer ∧ node2.layer = node1.layer + 1 ∧
       edge = { up_node := node2, down_node := node1, crossings := 0, fixed := false }) ∨
    (node2.layer < node1.layer ∧ node1.layer = node2.layer + 1 ∧
       edge = { up_node := node1, down_node := node2, crossings := 0, fixed := false }) := by
  by_cases heq : node1.layer = node2.layer
  · simp [addEdge, heq] at h
  · rcases lt_or_gt_of_ne heq with hlt | hgt
    · have hngt : ¬ node1.layer > node2.layer := lt_asymm hlt
      by_cases hadj : node2.layer - node1.layer = 1
      · left
        refine ⟨hlt, by omega, ?_⟩
        simp [addEdge, heq, hngt, hlt, hadj] at h
        exact h.symm
      · simp [addEdge, heq, hngt, hlt, hadj] at h
    · have hnlt : ¬ node1.layer < node2.layer := lt_asymm hgt
      by_cases hadj : node1.layer - node2.layer = 1
      · right
        refine ⟨hgt, by omega, ?_⟩
        simp [addEdge, heq, hgt, hnlt, hadj] at h
        exact h.symm
      · simp [addEdge, heq, hgt, hnlt, hadj] at h

/-- C6: an edge accepted by `addEdge` always has its `up_node` exactly one
layer above its `down_node` (whatever the order of the two arguments), an edge
whose endpoints share a layer is rejected with a fatal diagnostic, and so is
an edge whose endpoints sit on non-adjacent layers. -/
theorem addEdge_layer_check (node1 node2 : GNode) :
    (node1.layer = node2.layer → addEdge node1 node2 = Except.error ()) ∧
    (∀ edge : GEdge, addEdge node1 node2 = Except.ok edge →
       edge.up_node.layer = edge.down_node.layer + 1 ∧
       ((edge.up_node = node1 ∧ edge.down_node = node2) ∨
        (edge.up_node = node2 ∧ edge.down_node = node1))) ∧
    (node1.layer ≠ node2.layer → node1.layer - node2.layer ≠ 1 →
       node2.layer - node1.layer ≠ 1 → addEdge node1 node2 = Except.error ()) := by
  refine ⟨?_, ?_, ?_⟩
  · intro h
    simp [addEdge, h]
  · intro edge h
    rcases addEdge_ok_characterization node1 node2 edge h with ⟨_, h2, h3⟩ | ⟨_, h2, h3⟩
    · subst h3
      exact ⟨by simpa using h2, Or.inr ⟨rfl, rfl⟩⟩
    · subst h3
      exact ⟨by simpa using h2, Or.inl ⟨rfl, rfl⟩⟩
  · intro hne h1 h2
    rcases lt_or_gt_of_ne hne with hlt | hgt
    · have hngt : ¬ node1.layer > node2.layer := lt_asymm hlt
      simp [addEdge, hne, hngt, hlt, h2]
    · have hnlt : ¬ node1.layer < node2.layer := lt_asymm hgt
      simp [addEdge, hne, hgt, hnlt, h1]

theorem addEdge_layer_check_witness :
    addEdge { id := 7, layer := 0 } { id := 8, layer := 0 } = Except.error () ∧
    (({ up_node := { id := 8, layer := 1 }, down_node := { id := 7, layer := 0 },
        crossings := 0, fixed := false } : GEdge).up_node.layer
       = ({ up_node := { id := 8, layer := 1 }, down_node := { id := 7, layer := 0 },
            crossings := 0, fixed := false } : GEdge).down_node.layer + 1 ∧
     ((({ up_node := { id := 8, layer := 1 }, down_node := { id := 7, layer := 0 },
          crossings := 0, fixed := false } : GEdge).up_node = { id := 7, layer := 0 } ∧
       ({ up_node := { id := 8, layer := 1 }, down_node := { id := 7, layer := 0 },
          crossings := 0, fixed := false } : GEdge).down_node = { id := 8, layer := 1 }) ∨
      (({ up_node := { id := 8, layer := 1 }, down_node := { id := 7, layer := 0 },
          crossings := 0, fixed := false } : GEdge).up_node = { id := 8, layer := 1 } ∧
       ({ up_node := { id := 8, layer := 1 }, down_node := { id := 7, layer := 0 },
          crossings := 0, fixed := false } : GEdge).down_node = { id := 7, layer := 0 }))) ∧
    addEdge { id := 7, layer := 0 } { id := 8, layer := 2 } = Except.error () :=
  ⟨(addEdge_layer_check { id := 7, layer := 0 } { id := 8, layer := 0 }).1 rfl,
   (addEdge_layer_check { id := 7, layer := 0 } { id := 8, layer := 1 }).2.1
     { up_node := { id := 8, layer := 1 }, down_node := { id := 7, layer := 0 },
       crossings := 0, fixed := false } rfl,
   (addEdge_layer_check { id := 7, layer := 0 } { id := 8, layer := 2 }).2.2
     (by decide) (by decide) (by decide)⟩

/-- C10: `writeSgfEdges` prints every edge as `e <down id> <up id>`, i.e. from
the lower-layer endpoint to the upper-layer endpoint, regardless of the
source/target order the edge had in the input — swapping the two arguments of
`addEdge` yields the same printed line. -/
theorem writeSgf_normalizes_edge_direction (node1 node2 : GNode) (edge : GEdge)
    (h : addEdge node1 node2 = Except.ok edge) :
    writeSgfEdgeLine edge
      = (if node1.layer < node2.layer then (node1.id, node2.id) else (node2.id, node1.id)) ∧
    Except.map writeSgfEdgeLine (addEdge node2 node1) = Except.ok (writeSgfEdgeLine edge) ∧
    writeSgfEdges [edge] = [(edge.down_node.id, edge.up_node.id)] := by
  rcases addEdge_ok_characterization node1 node2 edge h with ⟨hlt, h2, h3⟩ | ⟨hgt, h2, h3⟩
  · subst h3
    refine ⟨by simp [writeSgfEdgeLine, hlt], ?_, by simp [writeSgfEdges, writeSgfEdgeLine]⟩
    have hne : node2.layer ≠ node1.layer := by omega
    have hngt : ¬ node2.layer < node1.layer := by omega
    simp [addEdge, hne, hngt, writeSgfEdgeLine, Except.map,
      show node2.layer - node1.layer = 1 by omega, show node2.layer > node1.layer from hlt]
  · subst h3
    refine ⟨?_, ?_, by simp [writeSgfEdges, writeSgfEdgeLine]⟩
    · have hnlt : ¬ node1.layer < node2.layer := by omega
      simp [writeSgfEdgeLine, hnlt]
    · have hne : node2.layer ≠ node1.layer := by omega
      have hngt : ¬ node2.layer > node1.layer := by omega
      simp [addEdge, hne, hngt, writeSgfEdgeLine, Except.map,
        show node2.layer < node1.layer from hgt, show node1.layer - node2.layer = 1 by omega]

theorem writeSgf_normalizes_edge_direction_witness :
    (addEdge { id := 4, layer := 0 } { id := 9, layer := 1 }
       = Except.ok { up_node := { id := 9, layer := 1 }, down_node := { id := 4, layer := 0 },
                     crossings := 0, fixed := false }) ∧
    (writeSgfEdgeLine { up_node := { id := 9, layer := 1 }, down_node := { id := 4, layer := 0 },
                        crossings := 0, fixed := false }
       = (if (0 : Int) < 1 then ((4 : Int), (9 : Int)) else (9, 4)) ∧
     Except.map writeSgfEdgeLine (addEdge { id := 9, layer := 1 } { id := 4, layer := 0 })
       = Except.ok (writeSgfEdgeLine
           { up_node := { id := 9, layer := 1 }, down_node := { id := 4, layer := 0 },
             crossings := 0, fixed := false }) ∧
     writeSgfEdges [{ up_node := { id := 9, layer := 1 }, down_node := { id := 4, layer := 0 },
                      crossings := 0, fixed := false }]
       = [(({ up_node := { id := 9, layer := 1 }, down_node := { id := 4, layer := 0 },
              crossings := 0, fixed := false } : GEdge).down_node.id,
           ({ up_node := { id := 9, layer := 1 }, down_node := { id := 4, layer := 0 },
              crossings := 0, fixed := false } : GEdge).up_node.id)]) :=
  ⟨rfl,
   writeSgf_normalizes_edge_direction { id := 4, layer := 0 } { id := 9, layer := 1 }
     { up_node := { id := 9, layer := 1 }, down_node := { id := 4, layer := 0 },
       crossings := 0, fixed := false } rfl⟩

theorem foldl_count_eq_length {α : Type} (l : List α) :
    ∀ n : Nat, l.foldl (fun c _ => c + 1) n = n + l.length := by
  induction l with
  | nil =>
    intro n
    simp
  | cons a t ih =>
    intro n
    simp only [List.foldl_cons, ih, List.length_cons]
    omega

theorem layer_update_eq_max (cur : Nat) (e : SgfNode) :
    (if e.layer ≥ cur then e.layer + 1 else cur) = max cur (e.layer + 1) := by
  by_cases h : e.layer ≥ cur
  · rw [if_pos h, max_eq_right (by omega)]
  · rw [if_neg h, max_eq_left (by omega)]

theorem readSgfLayerCount_foldl (entries : List SgfNode) :
    ∀ acc : Nat,
    entries.foldl (fun number_of_layers e =>
        if e.layer ≥ number_of_layers then e.layer + 1 else number_of_layers) acc
      = max acc ((entries.map (fun e => e.layer + 1)).foldr max 0) := by
  induction entries with
  | nil =>
    intro acc
    simp
  | cons e t ih =>
    intro acc
    rw [List.foldl_cons, ih, layer_update_eq_max, List.map_cons, List.foldr_cons, max_assoc]

/-- C8: a mismatch between the counts declared on the sgf `t` line and the
lines actually read is non-fatal — the counters kept by `readSgfNodes` and
`readSgfEdges` equal the actual number of node lines, edge lines, and distinct
layers read, whatever the `t` line declared, and the warning fires exactly on
a mismatch. -/
theorem sgf_count_mismatch_nonfatal (num_nodes num_edges num_layers : Int)
    (entries : List SgfNode) (edges : List (Int × Int)) :
    readSgfNodeCount entries = entries.length ∧
    readSgfEdgeCount edges = edges.length ∧
    readSgfLayerCount entries = (entries.map (fun e => e.layer + 1)).foldr max 0 ∧
    (sgfNodeCountWarning num_nodes entries = false ↔ num_nodes = (entries.length : Int)) ∧
    (sgfEdgeCountWarning num_edges edges = false ↔ num_edges = (edges.length : Int)) ∧
    (sgfLayerCountWarning num_layers entries = false ↔
       num_layers = (readSgfLayerCount entries : Int)) := by
  have hn : readSgfNodeCount entries = entries.length := by
    unfold readSgfNodeCount
    rw [foldl_count_eq_length]
    omega
  have he : readSgfEdgeCount edges = edges.length := by
    unfold readSgfEdgeCount
    rw [foldl_count_eq_length]
    omega
  have hl : readSgfLayerCount entries = (entries.map (fun e => e.layer + 1)).foldr max 0 := by
    unfold readSgfLayerCount
    rw [readSgfLayerCount_foldl]
    simp
  refine ⟨hn, he, hl, ?_, ?_, ?_⟩
  · unfold sgfNodeCountWarning
    rw [hn]
    simp
  · unfold sgfEdgeCountWarning
    rw [he]
    simp
  · unfold sgfLayerCountWarning
    simp

theorem readSgfNodesList_eq (nodes : List SgfNode) : readSgfNodesList nodes = nodes := by
  unfold readSgfNodesList
  have general : ∀ (l acc : List SgfNode),
      l.foldl (fun acc e => acc ++ [makeNumberedNode e.id e.layer e.position]) acc
        = acc ++ l := by
    intro l
    induction l with
    | nil =>
      intro acc
      simp
    | cons e t ih =>
      intro acc
      simp only [List.foldl_cons, ih]
      simp [makeNumberedNode]
  simpa using general nodes []

theorem makeNode_getD (names : List String) :
    ∀ (c i : Nat), i < (makeNode c names).length →
    ((makeNode c names).getD i { name := "", id := 0 }).id = c + i := by
  induction names with
  | nil =>
    intro c i h
    simp [makeNode] at h
  | cons nm rest ih =>
    intro c i h
    cases i with
    | zero =>
      simp [makeNode]
    | succ j =>
      have hj : j < (makeNode (c + 1) rest).length := by
        simpa [makeNode] using h
      have := ih (c + 1) j hj
      simp only [makeNode, List.getD_cons_succ, this]
      omega

/-- C5 (amended): for the `dot+ord` dialect the loader assigns
`master_node_list[i]->id == i` in order of first appearance, while for `sgf`
the master node list is exactly the node records in file order with the ids
*declared in the file* (`makeNumberedNode` stores the id verbatim), so there
the indexing property holds only when the file itself declares ids
`0..N-1` in order. -/
theorem node_ids_by_dialect :
    (∀ (names : List String) (i : Nat), i < (assignNodesToLayers names).length →
       ((assignNodesToLayers names).getD i { name := "", id := 0 }).id = i) ∧
    (∀ (names : List String), (assignNodesToLayers names).map (fun n => n.name) = names) ∧
    (∀ nodes : List SgfNode, readSgfNodesList nodes = nodes) := by
  refine ⟨?_, ?_, readSgfNodesList_eq⟩
  · intro names i h
    have := makeNode_getD names 0 i (by simpa [assignNodesToLayers] using h)
    simpa [assignNodesToLayers] using this
  · intro names
    unfold assignNodesToLayers
    have general : ∀ (l : List String) (c : Nat), (makeNode c l).map (fun n => n.name) = l := by
      intro l
      induction l with
      | nil =>
        intro c
        simp [makeNode]
      | cons nm rest ih =>
        intro c
        simp [makeNode, ih]
    exact general names 0

theorem node_ids_by_dialect_witness :
    (1 < (assignNodesToLayers ["a", "b"]).length) ∧
    ((assignNodesToLayers ["a", "b"]).getD 1 { name := "", id := 0 }).id = 1 :=
  ⟨by decide, node_ids_by_dialect.1 ["a", "b"] 1 (by decide)⟩

/-- C5 counterexample: the sgf input consisting of the single accepted line
`n 5 0 0` loads successfully, yet `master_node_list[0]->id = 5 ≠ 0` — the sgf
reader stores the declared id, it does not renumber nodes by master-list
index. -/
theorem sgf_ids_not_index :
    isOkExcept (readSgf [{ id := 5, layer := 0, position := 0 }]) = true ∧
    sgfIdsMatchIndex [{ id := 5, layer := 0, position := 0 }] = false := by
  constructor
  · rfl
  · rfl

theorem getD_set_self {α : Type} (l : List α) (i : Nat) (a d : α) (h : i < l.length) :
    (l.set i a).getD i d = a := by
  rw [List.getD_eq_getElem?_getD]
  rw [List.getElem?_set_self]
  · simp
  · simpa using h

theorem getD_set_ne {α : Type} (l : List α) (i j : Nat) (a d : α) (h : i ≠ j) :
    (l.set i a).getD j d = l.getD j d := by
  rw [List.getD_eq_getElem?_getD, List.getElem?_set_ne h, List.getD_eq_getElem?_getD]

theorem getD_replicate_list (n i : Nat) :
    (List.replicate n ([] : List SgfNode)).getD i [] = [] := by
  rcases lt_or_ge i n with h | h
  · rw [List.getD_eq_getElem?_getD, List.getElem?_replicate]
    simp [h]
  · rw [List.getD_eq_getElem?_getD, List.getElem?_eq_none (by simpa using h)]
    simp

theorem insertIntoLayerRev_duplicate (node : SgfNode) :
    ∀ l : List SgfNode, descByPos l →
    ∀ p ∈ l, p.position = node.position →
    ∃ e : SgfNode × SgfNode, insertIntoLayerRev node l = Except.error e ∧
      e.1 ∈ l ∧ e.2 = node ∧ e.1.position = node.position := by
  intro l
  induction l with
  | nil =>
    intro _ p hp _
    exact absurd hp (List.not_mem_nil p)
  | cons prev rest ih =>
    intro hdesc p hp hpos
    rw [descByPos, List.pairwise_cons] at hdesc
    obtain ⟨hhead, htail⟩ := hdesc
    by_cases hp0 : prev.position = node.position
    · refine ⟨(prev, node), ?_, List.mem_cons_self prev rest, rfl, hp0⟩
      simp only [insertIntoLayerRev]
      rw [if_pos (ge_of_eq hp0), if_pos hp0]
    · have hpmem : p ∈ rest := by
        rcases List.mem_cons.mp hp with rfl | hm
        · exact absurd hpos hp0
        · exact hm
      have hlt : node.position < prev.position := by
        have hlt0 := hhead p hpmem
        omega
      obtain ⟨e, he, hm, h2, h3⟩ := ih htail p hpmem hpos
      refine ⟨e, ?_, List.mem_cons_of_mem prev hm, h2, h3⟩
      simp only [insertIntoLayerRev]
      rw [if_pos (le_of_lt hlt), if_neg hp0, he]

theorem insertIntoLayerRev_ok (node : SgfNode) :
    ∀ l : List SgfNode, descByPos l →
    (∀ p ∈ l, p.position ≠ node.position) →
    ∃ r, insertIntoLayerRev node l = Except.ok r ∧ descByPos r ∧
      ∀ x, x ∈ r ↔ x = node ∨ x ∈ l := by
  intro l
  induction l with
  | nil =>
    intro _ _
    refine ⟨[node], rfl, ?_, by simp⟩
    rw [descByPos]
    exact List.pairwise_singleton _ node
  | cons prev rest ih =>
    intro hdesc hfresh
    rw [descByPos, List.pairwise_cons] at hdesc
    obtain ⟨hhead, htail⟩ := hdesc
    have hp0 : prev.position ≠ node.position := hfresh prev (List.mem_cons_self prev rest)
    by_cases hge : prev.position ≥ node.position
    · obtain ⟨r, hr, hrdesc, hrmem⟩ :=
        ih htail (fun p hp => hfresh p (List.mem_cons_of_mem prev hp))
      refine ⟨prev :: r, ?_, ?_, ?_⟩
      · simp only [insertIntoLayerRev]
        rw [if_pos hge, if_neg hp0, hr]
      · rw [descByPos, List.pairwise_cons]
        refine ⟨?_, hrdesc⟩
        intro x hx
        rcases (hrmem x).mp hx with rfl | hxr
        · exact lt_of_le_of_ne hge (Ne.symm hp0)
        · exact hhead x hxr
      · intro x
        rw [List.mem_cons, hrmem x, List.mem_cons]
        tauto
    · push_neg at hge
      refine ⟨node :: prev :: rest, ?_, ?_, by intro x; rw [List.mem_cons]⟩
      · simp only [insertIntoLayerRev]
        rw [if_neg (not_le.mpr hge)]
      · rw [descByPos, List.pairwise_cons]
        constructor
        · intro x hx
          rcases List.mem_cons.mp hx with rfl | hxr
          · exact hge
          · exact lt_trans (hhead x hxr) hge
        · rw [List.pairwise_cons]
          exact ⟨hhead, htail⟩

theorem insertIntoLayer_duplicate (node : SgfNode) (l : List SgfNode)
    (hasc : ascByPos l) (p : SgfNode) (hp : p ∈ l) (hpos : p.position = node.position) :
    ∃ e, insertIntoLayer node l = Except.error e ∧ e.1 ∈ l ∧ e.2 = node ∧
      e.1.position = node.position := by
  have hdesc : descByPos l.reverse := by
    rw [descByPos, List.pairwise_reverse]
    exact hasc
  obtain ⟨e, he, hm, h2, h3⟩ :=
    insertIntoLayerRev_duplicate node l.reverse hdesc p (List.mem_reverse.mpr hp) hpos
  refine ⟨e, ?_, List.mem_reverse.mp hm, h2, h3⟩
  unfold insertIntoLayer
  rw [he]

theorem insertIntoLayer_ok (node : SgfNode) (l : List SgfNode)
    (hasc : ascByPos l) (hfresh : ∀ p ∈ l, p.position ≠ node.position) :
    ∃ r, insertIntoLayer node l = Except.ok r ∧ ascByPos r ∧
      ∀ x, x ∈ r ↔ x = node ∨ x ∈ l := by
  have hdesc : descByPos l.reverse := by
    rw [descByPos, List.pairwise_reverse]
    exact hasc
  obtain ⟨r, hr, hrdesc, hrmem⟩ :=
    insertIntoLayerRev_ok node l.reverse hdesc
      (fun p hp => hfresh p (List.mem_reverse.mp hp))
  refine ⟨r.reverse, ?_, ?_, ?_⟩
  · unfold insertIntoLayer
    rw [hr]
  · rw [ascByPos, List.pairwise_reverse]
    exact hrdesc
  · intro x
    rw [List.mem_reverse, hrmem x, List.mem_reverse]

theorem addNodesToLayersStep_ok (ls : List (List SgfNode)) (n : SgfNode)
    (hlen : n.layer < ls.length) (hs : layersSorted ls) (hc : layersCoherent ls)
    (hf : ∀ x ∈ ls.getD n.layer [], x.position ≠ n.position) :
    ∃ ls', addNodesToLayersStep ls n = Except.ok ls' ∧ ls'.length = ls.length ∧
      layersSorted ls' ∧ layersCoherent ls' ∧
      ∀ (ln : Nat) (x : SgfNode),
        x ∈ ls'.getD ln [] ↔ x ∈ ls.getD ln [] ∨ (x = n ∧ ln = n.layer) := by
  obtain ⟨r, hr, hrasc, hrmem⟩ := insertIntoLayer_ok n (ls.getD n.layer []) (hs n.layer) hf
  refine ⟨ls.set n.layer r, ?_, List.length_set ls n.layer r, ?_, ?_, ?_⟩
  · unfold addNodesToLayersStep
    rw [hr]
  · intro ln
    by_cases h : n.layer = ln
    · subst h
      rw [getD_set_self ls n.layer r [] hlen]
      exact hrasc
    · rw [getD_set_ne ls n.layer ln r [] h]
      exact hs ln
  · intro ln x hx
    by_cases h : n.layer = ln
    · subst h
      rw [getD_set_self ls n.layer r [] hlen] at hx
      rcases (hrmem x).mp hx with rfl | hold
      · rfl
      · exact hc n.layer x hold
    · rw [getD_set_ne ls n.layer ln r [] h] at hx
      exact hc ln x hx
  · intro ln x
    by_cases h : n.layer = ln
    · subst h
      rw [getD_set_self ls n.layer r [] hlen, hrmem x]
      tauto
    · rw [getD_set_ne ls n.layer ln r [] h]
      constructor
      · intro hold
        exact Or.inl hold
      · intro hx
        rcases hx with hold | ⟨_, hln⟩
        · exact hold
        · exact absurd hln.symm h

theorem addNodesToLayersStep_error (ls : List (List SgfNode)) (n : SgfNode)
    (hs : layersSorted ls) (hc : layersCoherent ls)
    (p : SgfNode) (hp : p ∈ ls.getD n.layer []) (hpos : p.position = n.position) :
    ∃ e, addNodesToLayersStep ls n = Except.error e ∧ e.1.layer = e.2.layer ∧
      e.1.position = e.2.position ∧ e.2 = n := by
  obtain ⟨e, he, hm, h2, h3⟩ :=
    insertIntoLayer_duplicate n (ls.getD n.layer []) (hs n.layer) p hp hpos
  refine ⟨e, ?_, ?_, ?_, h2⟩
  · unfold addNodesToLayersStep
    rw [he]
  · rw [h2]
    exact hc n.layer e.1 hm
  · rw [h2]
    exact h3

theorem addNodes_fold_ok :
    ∀ (todo : List SgfNode) (ls : List (List SgfNode)),
    layersSorted ls → layersCoherent ls →
    (∀ m ∈ todo, m.layer < ls.length) →
    todo.Pairwise okPair → freshPositions todo ls →
    ∃ ls', List.foldlM addNodesToLayersStep ls todo = Except.ok ls' ∧
      ls'.length = ls.length ∧ layersSorted ls' ∧ layersCoherent ls' ∧
      ∀ (ln : Nat) (x : SgfNode),
        x ∈ ls'.getD ln [] ↔ x ∈ ls.getD ln [] ∨ (x ∈ todo ∧ x.layer = ln) := by
  intro todo
  induction todo with
  | nil =>
    intro ls hs hc _ _ _
    exact ⟨ls, rfl, rfl, hs, hc, by simp⟩
  | cons n rest ih =>
    intro ls hs hc hlen hpw hfresh
    obtain ⟨ls₁, h1, hlen1, hs1, hc1, hmem1⟩ :=
      addNodesToLayersStep_ok ls n (hlen n (List.mem_cons_self n rest)) hs hc
        (hfresh n (List.mem_cons_self n rest))
    rw [List.pairwise_cons] at hpw
    obtain ⟨hn, hrestpw⟩ := hpw
    have hfresh1 : freshPositions rest ls₁ := by
      intro m hm x hx
      rcases (hmem1 m.layer x).mp hx with hold | ⟨rfl, hlay⟩
      · exact hfresh m (List.mem_cons_of_mem n hm) x hold
      · exact hn m hm hlay.symm
    obtain ⟨ls', h2, hlen2, hs2, hc2, hmem2⟩ :=
      ih ls₁ hs1 hc1
        (fun m hm => by rw [hlen1]; exact hlen m (List.mem_cons_of_mem n hm))
        hrestpw hfresh1
    refine ⟨ls', ?_, by rw [hlen2, hlen1], hs2, hc2, ?_⟩
    · rw [List.foldlM_cons, h1]
      exact h2
    · intro ln x
      constructor
      · intro hx
        rcases (hmem2 ln x).mp hx with hx1 | ⟨hxr, hlay⟩
        · rcases (hmem1 ln x).mp hx1 with hold | ⟨rfl, rfl⟩
          · exact Or.inl hold
          · exact Or.inr ⟨List.mem_cons_self x rest, rfl⟩
        · exact Or.inr ⟨List.mem_cons_of_mem n hxr, hlay⟩
      · intro hx
        rcases hx with hold | ⟨hxm, hlay⟩
        · exact (hmem2 ln x).mpr (Or.inl ((hmem1 ln x).mpr (Or.inl hold)))
        · rcases List.mem_cons.mp hxm with rfl | hxr
          · exact (hmem2 ln x).mpr (Or.inl ((hmem1 ln x).mpr (Or.inr ⟨rfl, hlay.symm⟩)))
          · exact (hmem2 ln x).mpr (Or.inr ⟨hxr, hlay⟩)

theorem addNodes_fold_error :
    ∀ (todo : List SgfNode) (ls : List (List SgfNode)),
    layersSorted ls → layersCoherent ls →
    (∀ m ∈ todo, m.layer < ls.length) →
    ¬ (todo.Pairwise okPair ∧ freshPositions todo ls) →
    ∃ e, List.foldlM addNodesToLayersStep ls todo = Except.error e ∧
      e.1.layer = e.2.layer ∧ e.1.position = e.2.position := by
  intro todo
  induction todo with
  | nil =>
    intro ls _ _ _ hbad
    refine absurd ⟨List.Pairwise.nil, ?_⟩ hbad
    intro m hm
    exact absurd hm (List.not_mem_nil m)
  | cons n rest ih =>
    intro ls hs hc hlen hbad
    by_cases hclash : ∃ p ∈ ls.getD n.layer [], p.position = n.position
    · obtain ⟨p, hp, hpos⟩ := hclash
      obtain ⟨e, he, h1, h2, _⟩ := addNodesToLayersStep_error ls n hs hc p hp hpos
      refine ⟨e, ?_, h1, h2⟩
      rw [List.foldlM_cons, he]
      rfl
    · push_neg at hclash
      obtain ⟨ls₁, h1, hlen1, hs1, hc1, hmem1⟩ :=
        addNodesToLayersStep_ok ls n (hlen n (List.mem_cons_self n rest)) hs hc hclash
      have hbad1 : ¬ (rest.Pairwise okPair ∧ freshPositions rest ls₁) := by
        intro hgood
        obtain ⟨hpw, hfresh⟩ := hgood
        apply hbad
        constructor
        · rw [List.pairwise_cons]
          refine ⟨?_, hpw⟩
          intro m hm hlay hposeq
          have hnmem : n ∈ ls₁.getD m.layer [] :=
            (hmem1 m.layer n).mpr (Or.inr ⟨rfl, hlay.symm⟩)
          exact hfresh m hm n hnmem hposeq
        · intro m hm x hx
          rcases List.mem_cons.mp hm with rfl | hmr
          · exact hclash x hx
          · exact hfresh m hmr x ((hmem1 m.layer x).mpr (Or.inl hx))
      obtain ⟨e, h2, he1, he2⟩ :=
        ih ls₁ hs1 hc1
          (fun m hm => by rw [hlen1]; exact hlen m (List.mem_cons_of_mem n hm))
          hbad1
      refine ⟨e, ?_, he1, he2⟩
      rw [List.foldlM_cons, h1]
      exact h2

theorem le_foldr_max (l : List Nat) : ∀ a ∈ l, a ≤ l.foldr max 0 := by
  induction l with
  | nil =>
    intro a ha
    exact absurd ha (List.not_mem_nil a)
  | cons b t ih =>
    intro a ha
    rcases List.mem_cons.mp ha with rfl | hat
    · simp only [List.foldr_cons]
      exact le_max_left a _
    · simp only [List.foldr_cons]
      exact le_trans (ih a hat) (le_max_right _ _)

theorem layer_lt_readSgfLayerCount (nodes : List SgfNode) :
    ∀ n ∈ nodes, n.layer < readSgfLayerCount nodes := by
  intro n hn
  unfold readSgfLayerCount
  rw [readSgfLayerCount_foldl]
  have hmem : n.layer + 1 ∈ nodes.map (fun e => e.layer + 1) :=
    List.mem_map_of_mem (fun e => e.layer + 1) hn
  have hle := le_foldr_max (nodes.map (fun e => e.layer + 1)) (n.layer + 1) hmem
  omega

/-- C7: any sgf input in which two nodes declare the same layer and the same
position makes loading fatal — `readSgf` aborts through the duplicate-position
diagnostic of `insertIntoLayer`, whose error names two nodes sharing both the
layer and the position, and the load is not completed. -/
theorem sgf_duplicate_position_fatal (nodes : List SgfNode)
    (h : ¬ distinctPositions nodes) :
    ∃ e, readSgf nodes = Except.error e ∧ e.1.layer = e.2.layer ∧
      e.1.position = e.2.position := by
  unfold readSgf addNodesToLayers
  rw [readSgfNodesList_eq]
  apply addNodes_fold_error nodes (List.replicate (readSgfLayerCount nodes) [])
  · intro ln
    rw [getD_replicate_list]
    exact List.Pairwise.nil
  · intro ln x hx
    rw [getD_replicate_list] at hx
    exact absurd hx (List.not_mem_nil x)
  · intro m hm
    rw [List.length_replicate]
    exact layer_lt_readSgfLayerCount nodes m hm
  · intro hgood
    exact h hgood.1

theorem sgf_duplicate_position_fatal_witness :
    (¬ distinctPositions
        [{ id := 0, layer := 0, position := 4 }, { id := 1, layer := 0, position := 4 }]) ∧
    ∃ e, readSgf [{ id := 0, layer := 0, position := 4 },
                  { id := 1, layer := 0, position := 4 }] = Except.error e ∧
      e.1.layer = e.2.layer ∧ e.1.position = e.2.position :=
  ⟨by unfold distinctPositions; decide,
   sgf_duplicate_position_fatal
     [{ id := 0, layer := 0, position := 4 }, { id := 1, layer := 0, position := 4 }]
     (by unfold distinctPositions; decide)⟩

/-- C1 (amended): after `readSgf` succeeds, every layer's node list is sorted
by strictly ascending *declared* position and contains exactly the nodes that
declared that layer, with their records — in particular their `position`
fields — unchanged.  The `position` fields are *not* reassigned to slot
indices (`sort_all_layers_by_position()` is commented out in the source), so
the layer invariant `layer.nodes[i].position == i` holds after loading only
when the declared positions on each layer are exactly `0..k-1`. -/
theorem readSgf_layers_sorted_by_declared_position (nodes : List SgfNode)
    (h : distinctPositions nodes) :
    ∃ ls, readSgf nodes = Except.ok ls ∧ ls.length = readSgfLayerCount nodes ∧
      (∀ ln : Nat, ascByPos (ls.getD ln [])) ∧
      (∀ (ln : Nat) (x : SgfNode), x ∈ ls.getD ln [] ↔ x ∈ nodes ∧ x.layer = ln) := by
  unfold readSgf addNodesToLayers
  rw [readSgfNodesList_eq]
  obtain ⟨ls, h1, hlen, hs, _, hmem⟩ :=
    addNodes_fold_ok nodes (List.replicate (readSgfLayerCount nodes) [])
      (fun ln => by rw [getD_replicate_list]; exact List.Pairwise.nil)
      (fun ln x hx => by rw [getD_replicate_list] at hx; exact absurd hx (List.not_mem_nil x))
      (fun m hm => by
        rw [List.length_replicate]
        exact layer_lt_readSgfLayerCount nodes m hm)
      h
      (fun m hm x hx => by rw [getD_replicate_list] at hx; exact absurd hx (List.not_mem_nil x))
  refine ⟨ls, h1, by rw [hlen, List.length_replicate], hs, ?_⟩
  intro ln x
  rw [hmem ln x, getD_replicate_list]
  simp

theorem readSgf_layers_sorted_witness :
    distinctPositions
      [{ id := 0, layer := 0, position := 0 }, { id := 1, layer := 0, position := 1 }] ∧
    ∃ ls, readSgf [{ id := 0, layer := 0, position := 0 },
                   { id := 1, layer := 0, position := 1 }] = Except.ok ls ∧
      ls.length = readSgfLayerCount
        [{ id := 0, layer := 0, position := 0 }, { id := 1, layer := 0, position := 1 }] ∧
      (∀ ln : Nat, ascByPos (ls.getD ln [])) ∧
      (∀ (ln : Nat) (x : SgfNode), x ∈ ls.getD ln [] ↔
        x ∈ [{ id := 0, layer := 0, position := 0 },
             { id := 1, layer := 0, position := 1 }] ∧ x.layer = ln) :=
  ⟨by unfold distinctPositions; decide,
   readSgf_layers_sorted_by_declared_position
     [{ id := 0, layer := 0, position := 0 }, { id := 1, layer := 0, position := 1 }]
     (by unfold distinctPositions; decide)⟩

/-- C1 counterexample: the sgf input with two nodes on layer 0 at declared
positions 2 and 5 is accepted, the layer comes out sorted by declared
position, but `layer.nodes[0].position = 2 ≠ 0` — positions are not reassigned
to slot indices after loading, so the claimed layer invariant fails. -/
theorem readSgf_positions_not_reassigned :
    isOkExcept (readSgf [{ id := 0, layer := 0, position := 2 },
                         { id := 1, layer := 0, position := 5 }]) = true ∧
    readSgfPositionsOk [{ id := 0, layer := 0, position := 2 },
                        { id := 1, layer := 0, position := 5 }] = false := by
  constructor
  · rfl
  · rfl
